import Mathlib

/-!
A shallow embedding of the two core functions of `src/gemini_dev.py`:

* `extract_code` (lines 62-70): given the fenced-code-block matches found in a
  response text, pick the first block tagged with a requested language
  (case-insensitively), falling back to the first block, or `none` when there
  is no block at all.

* the materialization core of `create_project` (lines 183-203): given the
  `FILE: <path>` + fenced-block matches found in a response text, write each
  file under an output root, skipping any path that escapes the root and any
  path whose write fails, without aborting the remaining pairs.

Modelling decisions:

* `re.findall` is a library call, not code of this repository; both functions
  receive the list of `(group1, group2)` match pairs it would return.  For the
  fence pattern that is `(language tag or "", block body)` - an absent tag
  comes back as the empty string, exactly as Python's `findall` reports an
  unmatched optional group.  For the `FILE:` pattern it is
  `(path string, block body)`.

* Python string methods used by the two functions (`str.strip`, `str.lower`,
  `pathlib`'s splitting of a path on `/`, `startswith('/')`) are re-implemented
  over `List Char` so that every definition evaluates inside the kernel.
  Whitespace is the ASCII whitespace set, which is what the observed inputs
  contain.

* `pathlib` paths are lists of components.  `PurePath` drops empty and `"."`
  components; `/` with an absolute right operand discards the left operand;
  `Path.resolve()` collapses `".."` lexically (symlinks are outside the
  model); `Path.parents` is the list of strict ancestors, nearest first.

* The filesystem is a record of files (path, contents) and directories;
  success of the mkdir-plus-open-plus-write of one target (the `try` body at
  lines 196-198) is an oracle `writeOk` on the resolved path, so a failing
  write changes nothing and a successful one overwrites in place or appends.
-/

namespace GeminiDev

/-! ## Python string primitives over `List Char` -/

/-- ASCII whitespace, the character class `str.strip` removes here. -/
def isSpaceChar (c : Char) : Bool :=
  c == ' ' || c == '\t' || c == '\n' || c == '\r'

/-- Python `str.strip()`: drop leading and trailing whitespace. -/
def stripStr (s : String) : String :=
  ⟨((s.data.dropWhile isSpaceChar).reverse.dropWhile isSpaceChar).reverse⟩

/-- Python `str.lower()` (ASCII case folding). -/
def lowerStr (s : String) : String :=
  ⟨s.data.map Char.toLower⟩

/-- `str.startswith('/')`, the absolute-path test of `pathlib`. -/
def startsWithSlash (s : String) : Bool :=
  match s.data with
  | [] => false
  | c :: _ => c == '/'

/-- Split a character list on `/`, keeping empty groups (Python
`"a//b".split("/") == ["a", "", "b"]`). -/
def splitSlash : List Char → List (List Char)
  | [] => [[]]
  | c :: rest =>
    match splitSlash rest with
    | [] => [[c]]
    | g :: gs => if c = '/' then [] :: g :: gs else (c :: g) :: gs

/-! ## The `pathlib` path model -/

/-- The components of `PurePath(s)`: split on `/`, dropping empty and `"."`
components (so `Path("")`, like `Path(".")`, has no components). -/
def pathParts (s : String) : List String :=
  ((splitSlash s.data).map (fun g => (⟨g⟩ : String))).filter
    (fun comp => decide (comp ≠ "" ∧ comp ≠ "."))

/-- `output_path / rel`: an absolute right operand replaces the left one,
otherwise the components are concatenated. -/
def joinPath (root : List String) (s : String) : List String :=
  if startsWithSlash s then pathParts s else root ++ pathParts s

/-- The lexical part of `Path.resolve()`: fold the components, a `".."`
popping the accumulated path (`".."` at the filesystem root stays there,
as `/..` is `/`). -/
def resolvePath (p : List String) : List String :=
  p.foldl (fun acc comp => if comp = ".." then acc.dropLast else acc ++ [comp]) []

/-- `PurePath.parents`: every strict ancestor, nearest first
(`/a/b/c` gives `/a/b`, `/a`, `/`). -/
def parents (p : List String) : List (List String) :=
  ((List.range p.length).reverse).map (fun k => p.take k)

/-- The guard of line 194, stated positively:
`output_path.resolve() in abs_path.parents`. -/
def containmentOk (rootRes absPath : List String) : Bool :=
  decide (rootRes ∈ parents absPath)

/-- The resolved absolute target of one `FILE:` path string:
`(output_path / Path(rel_path_str.strip())).resolve()` (lines 192-193). -/
def resolveAbs (root : List String) (pathStr : String) : List String :=
  resolvePath (joinPath root (stripStr pathStr))

/-! ## The filesystem model -/

/-- On-disk state: regular files with their contents, and directories. -/
structure FS where
  files : List (List String × String)
  dirs : List (List String)
deriving DecidableEq

/-- The contents of the file at `k`, if one exists. -/
def lookupF (fs : FS) (k : List String) : Option String :=
  (fs.files.find? (fun e => decide (e.1 = k))).map Prod.snd

/-- `open(abs_path, 'w')` followed by `f.write(c)`: truncate and overwrite an
existing file at `k`, create it otherwise. -/
def writeFile (fs : FS) (k : List String) (c : String) : FS :=
  { fs with
    files :=
      if fs.files.any (fun e => decide (e.1 = k)) then
        fs.files.map (fun e => if e.1 = k then (k, c) else e)
      else
        fs.files ++ [(k, c)] }

/-- Record one directory as present. -/
def addDir (ds : List (List String)) (d : List String) : List (List String) :=
  if d ∈ ds then ds else ds ++ [d]

/-- `mkdir(parents=True, exist_ok=True)`: the directory and all its ancestors
end up present. -/
def mkdirRec (fs : FS) (d : List String) : FS :=
  { fs with dirs := ((parents d).reverse ++ [d]).foldl addDir fs.dirs }

/-! ## The materializer (`create_project`, lines 183-203) -/

/-- Why one candidate pair was skipped.  The reason taxonomy is the spec's;
which reasons the code actually produces is settled by the theorems
(`EmptyPath` is claimed by the spec but never produced, see C4). -/
inductive SkipReason where
  | PathEscape
  | WriteError
  | EmptyPath
deriving DecidableEq

/-- The accumulator threaded through the loop over the matches:
`created_files`, the skipped pairs with their reasons (the code reports them
on the console as it goes), and the filesystem. -/
structure MatState where
  created : List String
  skipped : List (String × SkipReason)
  fs : FS
deriving DecidableEq

/-- One iteration of the loop at lines 191-201 on a match
`(rel_path_str, content)`:

* `rel_path = Path(rel_path_str.strip())`, `abs_path = (output_path / rel_path).resolve()`;
* if `output_path.resolve() not in abs_path.parents`, record a path escape
  and continue (line 194-195);
* otherwise try to create the parent directories and write the stripped
  content (lines 196-198); on I/O failure (`writeOk` false) record a write
  error and continue (line 201); on success append to `created_files`.
-/
def createStep (writeOk : List String → Bool) (root : List String)
    (st : MatState) (m : String × String) : MatState :=
  let relStr := stripStr m.1
  let absPath := resolvePath (joinPath root relStr)
  if containmentOk (resolvePath root) absPath then
    if writeOk absPath then
      { created := st.created ++ [relStr]
        skipped := st.skipped
        fs := writeFile (mkdirRec st.fs absPath.dropLast) absPath (stripStr m.2) }
    else
      { st with skipped := st.skipped ++ [(relStr, SkipReason.WriteError)] }
  else
    { st with skipped := st.skipped ++ [(relStr, SkipReason.PathEscape)] }

/-- The materialization core of `create_project` (lines 183-203), over the
list of `(rel_path_str, content)` pairs `re.findall` returns for the
`FILE:` pattern.  Zero pairs is the parse-error return at lines 185-187,
taken before any filesystem operation; otherwise the output root is created
(line 189) and the pairs are processed in document order.  The result is
`(some (created_files, skipped), final filesystem)` on success and
`(none, unchanged filesystem)` on the parse error. -/
def create_project (writeOk : List String → Bool) (root : List String)
    (ms : List (String × String)) (fs : FS) :
    Option (List String × List (String × SkipReason)) × FS :=
  if ms.isEmpty then
    (none, fs)
  else
    let st := ms.foldl (createStep writeOk root)
      { created := [], skipped := [], fs := mkdirRec fs (resolvePath root) }
    (some (st.created, st.skipped), st.fs)

/-! ## The extractor (`extract_code`, lines 62-70) -/

/-- The test of line 68: `lang and lang.lower() == language.lower()`
(a block with no tag has `lang = ""`, which is falsy). -/
def langMatches (language : String) (lc : String × String) : Bool :=
  decide (lc.1 ≠ "") && decide (lowerStr lc.1 = lowerStr language)

/-- `extract_code` (lines 62-70), over the `(lang, code)` pairs `re.findall`
returns for the fence pattern; `language = ""` models `language=None`
(line 67 tests Python truthiness, so an empty string also skips the scan). -/
def extract_code (ms : List (String × String)) (language : String := "") :
    Option String :=
  match ms with
  | [] => none
  | m0 :: _ =>
    match (if language ≠ "" then ms.find? (langMatches language) else none) with
    | some lc => some (stripStr lc.2)
    | none => some (stripStr m0.2)

/-- Python `x or y` for an optional string `x`: `None` and `""` are falsy. -/
def pyOrStr (x : Option String) (y : String) : String :=
  match x with
  | some s => if s = "" then y else s
  | none => y

/-- The save path of the `ask` command (lines 111-117): which text ends up
written to the output file.  `content_to_save` starts as the language-specific
extraction when a language was given; if that is falsy (`None` or `""`) it
falls back to `extract_code(response_text) or response_text`. -/
def content_to_save (ms : List (String × String))
    (extract_language : String) (response_text : String) : String :=
  match (if extract_language ≠ "" then extract_code ms extract_language else none) with
  | some s => if s = "" then pyOrStr (extract_code ms) response_text else s
  | none => pyOrStr (extract_code ms) response_text

/-! ## Lemmas: the path model -/

/-- `pathlib`'s `parents` holds exactly the strict ancestors. -/
theorem mem_parents {r p : List String} : r ∈ parents p ↔ (r <+: p ∧ r ≠ p) := by
  unfold parents
  simp only [List.mem_map, List.mem_reverse, List.mem_range]
  constructor
  · rintro ⟨k, hk, rfl⟩
    refine ⟨⟨p.drop k, List.take_append_drop k p⟩, ?_⟩
    intro h
    have hlen : (p.take k).length = p.length := by rw [h]
    rw [List.length_take] at hlen
    omega
  · rintro ⟨hpre, hne⟩
    have htake : r = p.take r.length := List.prefix_iff_eq_take.mp hpre
    refine ⟨r.length, ?_, htake.symm⟩
    rcases Nat.lt_or_ge r.length p.length with h | h
    · exact h
    · exact absurd (htake.trans (List.take_of_length_le h)) hne

/-- The line-194 check, in spec vocabulary: it accepts exactly the strict
descendants of the resolved root. -/
theorem containmentOk_iff {rootRes absPath : List String} :
    containmentOk rootRes absPath = true ↔ (rootRes <+: absPath ∧ rootRes ≠ absPath) := by
  unfold containmentOk
  rw [decide_eq_true_iff]
  exact mem_parents

/-- A path equal to the (resolved) root itself fails the line-194 check. -/
theorem containmentOk_self (r : List String) : containmentOk r r = false := by
  rw [Bool.eq_false_iff]
  intro h
  exact (containmentOk_iff.mp h).2 rfl

/-- A path string that strips to the empty string resolves to the resolved
output root itself (`Path("")` has no components). -/
theorem resolveAbs_of_strip_empty {root : List String} {p : String}
    (h : stripStr p = "") : resolveAbs root p = resolvePath root := by
  unfold resolveAbs joinPath
  rw [h]
  have h1 : startsWithSlash "" = false := rfl
  have h2 : pathParts "" = [] := rfl
  rw [h1, h2]
  simp

/-! ## Lemmas: the filesystem model -/

theorem files_mkdirRec (fs : FS) (d : List String) : (mkdirRec fs d).files = fs.files := rfl

theorem lookupF_mkdirRec (fs : FS) (d k : List String) :
    lookupF (mkdirRec fs d) k = lookupF fs k := rfl

/-- Updating an existing key in place makes `find?` for that key return the
new entry. -/
theorem find_update_self (l : List (List String × String)) (k : List String) (c : String)
    (hany : l.any (fun e => decide (e.1 = k)) = true) :
    (l.map (fun e => if e.1 = k then (k, c) else e)).find? (fun e => decide (e.1 = k))
      = some (k, c) := by
  induction l with
  | nil => simp at hany
  | cons e l ih =>
    by_cases h : e.1 = k
    · rw [List.map_cons, if_pos h]
      exact List.find?_cons_of_pos _ (by simp)
    · rw [List.map_cons, if_neg h, List.find?_cons_of_neg _ (by simpa using h)]
      apply ih
      rw [List.any_cons] at hany
      simpa [h] using hany

/-- Updating key `k` in place does not change `find?` for a key `k' ≠ k`. -/
theorem find_update_ne (l : List (List String × String)) {k k' : List String} (c : String)
    (h : k' ≠ k) :
    (l.map (fun e => if e.1 = k then (k, c) else e)).find? (fun e => decide (e.1 = k'))
      = l.find? (fun e => decide (e.1 = k')) := by
  induction l with
  | nil => rfl
  | cons e l ih =>
    by_cases he : e.1 = k
    · have h1 : ¬((k, c).1 = k') := fun hk => h hk.symm
      have h2 : ¬(e.1 = k') := by rw [he]; exact fun hk => h hk.symm
      rw [List.map_cons, if_pos he, List.find?_cons_of_neg _ (by simpa using h1),
        List.find?_cons_of_neg _ (by simpa using h2)]
      exact ih
    · rw [List.map_cons, if_neg he]
      by_cases he' : e.1 = k'
      · rw [List.find?_cons_of_pos _ (by simpa using he'),
          List.find?_cons_of_pos _ (by simpa using he')]
      · rw [List.find?_cons_of_neg _ (by simpa using he'),
          List.find?_cons_of_neg _ (by simpa using he')]
        exact ih

theorem lookupF_writeFile_self (fs : FS) (k : List String) (c : String) :
    lookupF (writeFile fs k c) k = some c := by
  unfold writeFile lookupF
  by_cases hany : fs.files.any (fun e => decide (e.1 = k)) = true
  · simp only [hany, if_true]
    rw [find_update_self fs.files k c hany]
    rfl
  · rw [Bool.not_eq_true] at hany
    simp only [hany, Bool.false_eq_true, if_false]
    have hnone : fs.files.find? (fun e => decide (e.1 = k)) = none := by
      rw [List.find?_eq_none]
      intro x hx hdec
      rw [List.any_eq_false] at hany
      exact hany x hx hdec
    rw [List.find?_append, hnone, Option.none_or,
      List.find?_cons_of_pos _ (by simp)]
    rfl

theorem lookupF_writeFile_ne (fs : FS) {k k' : List String} (c : String) (h : k' ≠ k) :
    lookupF (writeFile fs k c) k' = lookupF fs k' := by
  unfold writeFile lookupF
  by_cases hany : fs.files.any (fun e => decide (e.1 = k)) = true
  · simp only [hany, if_true]
    rw [find_update_ne fs.files c h]
  · rw [Bool.not_eq_true] at hany
    simp only [hany, Bool.false_eq_true, if_false]
    rw [List.find?_append]
    have h1 : List.find? (fun e => decide (e.1 = k')) [(k, c)] = none := by
      have : ¬((k, c).1 = k') := fun hk => h hk.symm
      rw [List.find?_cons_of_neg _ (by simpa using this)]
      rfl
    rw [h1, Option.or_none]

/-- A write never removes a file: a key present before is present after. -/
theorem lookupF_writeFile_none {fs : FS} {k k' : List String} {c : String}
    (h : lookupF (writeFile fs k c) k' = none) : lookupF fs k' = none := by
  by_cases hk : k' = k
  · subst hk
    rw [lookupF_writeFile_self] at h
    exact absurd h (by simp)
  · rwa [lookupF_writeFile_ne fs c hk] at h

/-- Every file of the written state was already there or sits at the written
key. -/
theorem mem_files_writeFile {fs : FS} {k : List String} {c : String}
    {q : List String} {d : String}
    (h : (q, d) ∈ (writeFile fs k c).files) : (q, d) ∈ fs.files ∨ q = k := by
  unfold writeFile at h
  by_cases hany : fs.files.any (fun e => decide (e.1 = k)) = true
  · simp only [hany, if_true, List.mem_map] at h
    obtain ⟨e, he, heq⟩ := h
    by_cases h1 : e.1 = k
    · rw [if_pos h1] at heq
      right
      rw [Prod.mk.injEq] at heq
      exact heq.1.symm
    · rw [if_neg h1] at heq
      left
      rw [← heq]
      exact he
  · rw [Bool.not_eq_true] at hany
    simp only [hany, Bool.false_eq_true, if_false, List.mem_append, List.mem_singleton] at h
    rcases h with h | h
    · exact Or.inl h
    · right
      rw [Prod.mk.injEq] at h
      exact h.1

/-! ## Lemmas: the materialization loop -/

/-- Whether one match gets written: the two guards of `createStep`, which
depend only on the match, the root and the I/O oracle — not on the
accumulated state. -/
def accepts (writeOk : List String → Bool) (root : List String) (m : String × String) : Bool :=
  containmentOk (resolvePath root) (resolveAbs root m.1) && writeOk (resolveAbs root m.1)

/-- Whether one match writes the file at `k`. -/
def writesTo (writeOk : List String → Bool) (root k : List String) (m : String × String) : Bool :=
  accepts writeOk root m && decide (resolveAbs root m.1 = k)

theorem createStep_escape (writeOk : List String → Bool) (root : List String)
    (st : MatState) (m : String × String)
    (h : containmentOk (resolvePath root) (resolveAbs root m.1) = false) :
    createStep writeOk root st m
      = { st with skipped := st.skipped ++ [(stripStr m.1, SkipReason.PathEscape)] } := by
  have h' : containmentOk (resolvePath root) (resolvePath (joinPath root (stripStr m.1)))
      = false := h
  simp only [createStep, h', Bool.false_eq_true, if_false]

theorem createStep_writeError (writeOk : List String → Bool) (root : List String)
    (st : MatState) (m : String × String)
    (h1 : containmentOk (resolvePath root) (resolveAbs root m.1) = true)
    (h2 : writeOk (resolveAbs root m.1) = false) :
    createStep writeOk root st m
      = { st with skipped := st.skipped ++ [(stripStr m.1, SkipReason.WriteError)] } := by
  have h1' : containmentOk (resolvePath root) (resolvePath (joinPath root (stripStr m.1)))
      = true := h1
  have h2' : writeOk (resolvePath (joinPath root (stripStr m.1))) = false := h2
  simp only [createStep, h1', if_true, h2', Bool.false_eq_true, if_false]

theorem createStep_write (writeOk : List String → Bool) (root : List String)
    (st : MatState) (m : String × String)
    (h1 : containmentOk (resolvePath root) (resolveAbs root m.1) = true)
    (h2 : writeOk (resolveAbs root m.1) = true) :
    createStep writeOk root st m
      = { created := st.created ++ [stripStr m.1]
          skipped := st.skipped
          fs := writeFile (mkdirRec st.fs (resolveAbs root m.1).dropLast)
            (resolveAbs root m.1) (stripStr m.2) } := by
  have h1' : containmentOk (resolvePath root) (resolvePath (joinPath root (stripStr m.1)))
      = true := h1
  have h2' : writeOk (resolvePath (joinPath root (stripStr m.1))) = true := h2
  simp only [createStep, h1', if_true, h2']
  rfl

/-- Each loop iteration settles exactly one pair: it lands in `created` or in
`skipped`. -/
theorem createStep_count (writeOk : List String → Bool) (root : List String)
    (st : MatState) (m : String × String) :
    (createStep writeOk root st m).created.length
      + (createStep writeOk root st m).skipped.length
      = st.created.length + st.skipped.length + 1 := by
  by_cases h1 : containmentOk (resolvePath root) (resolveAbs root m.1) = true
  · by_cases h2 : writeOk (resolveAbs root m.1) = true
    · rw [createStep_write writeOk root st m h1 h2]
      simp only [List.length_append, List.length_singleton]
      omega
    · rw [Bool.not_eq_true] at h2
      rw [createStep_writeError writeOk root st m h1 h2]
      simp only [List.length_append, List.length_singleton]
      omega
  · rw [Bool.not_eq_true] at h1
    rw [createStep_escape writeOk root st m h1]
    simp only [List.length_append, List.length_singleton]
    omega

theorem createStep_skipped_mono (writeOk : List String → Bool) (root : List String)
    (st : MatState) (m : String × String) {e : String × SkipReason}
    (h : e ∈ st.skipped) : e ∈ (createStep writeOk root st m).skipped := by
  by_cases h1 : containmentOk (resolvePath root) (resolveAbs root m.1) = true
  · by_cases h2 : writeOk (resolveAbs root m.1) = true
    · rw [createStep_write writeOk root st m h1 h2]
      exact h
    · rw [Bool.not_eq_true] at h2
      rw [createStep_writeError writeOk root st m h1 h2]
      exact List.mem_append_left _ h
  · rw [Bool.not_eq_true] at h1
    rw [createStep_escape writeOk root st m h1]
    exact List.mem_append_left _ h

theorem foldl_skipped_mono (writeOk : List String → Bool) (root : List String)
    (ms : List (String × String)) (st : MatState) {e : String × SkipReason}
    (h : e ∈ st.skipped) : e ∈ (ms.foldl (createStep writeOk root) st).skipped := by
  induction ms generalizing st with
  | nil => exact h
  | cons m ms ih => exact ih _ (createStep_skipped_mono writeOk root st m h)

/-- The fold settles every pair: created and skipped together account for the
whole list of matches. -/
theorem foldl_count (writeOk : List String → Bool) (root : List String)
    (ms : List (String × String)) (st : MatState) :
    (ms.foldl (createStep writeOk root) st).created.length
      + (ms.foldl (createStep writeOk root) st).skipped.length
      = st.created.length + st.skipped.length + ms.length := by
  induction ms generalizing st with
  | nil => simp
  | cons m ms ih =>
    rw [List.foldl_cons, ih (createStep writeOk root st m), createStep_count,
      List.length_cons]
    omega

/-- A pair whose resolved path fails the containment check is recorded as a
path escape. -/
theorem foldl_skipped_of_escape (writeOk : List String → Bool) (root : List String)
    (ms : List (String × String)) (st : MatState) {p c : String}
    (hmem : (p, c) ∈ ms)
    (h : containmentOk (resolvePath root) (resolveAbs root p) = false) :
    (stripStr p, SkipReason.PathEscape) ∈ (ms.foldl (createStep writeOk root) st).skipped := by
  induction ms generalizing st with
  | nil => cases hmem
  | cons m ms ih =>
    rcases List.mem_cons.mp hmem with heq | htail
    · subst heq
      rw [List.foldl_cons]
      apply foldl_skipped_mono
      rw [createStep_escape writeOk root st (p, c) h]
      exact List.mem_append_right _ (List.mem_singleton.mpr rfl)
    · exact ih _ htail

/-- A pair that passes the containment check but whose write fails is
recorded as a write error. -/
theorem foldl_skipped_of_writeError (writeOk : List String → Bool) (root : List String)
    (ms : List (String × String)) (st : MatState) {p c : String}
    (hmem : (p, c) ∈ ms)
    (h1 : containmentOk (resolvePath root) (resolveAbs root p) = true)
    (h2 : writeOk (resolveAbs root p) = false) :
    (stripStr p, SkipReason.WriteError) ∈ (ms.foldl (createStep writeOk root) st).skipped := by
  induction ms generalizing st with
  | nil => cases hmem
  | cons m ms ih =>
    rcases List.mem_cons.mp hmem with heq | htail
    · subst heq
      rw [List.foldl_cons]
      apply foldl_skipped_mono
      rw [createStep_writeError writeOk root st (p, c) h1 h2]
      exact List.mem_append_right _ (List.mem_singleton.mpr rfl)
    · exact ih _ htail

/-- The loop only ever records `PathEscape` and `WriteError`; the spec's
`EmptyPath` reason is never produced. -/
theorem foldl_skipped_reasons (writeOk : List String → Bool) (root : List String)
    (ms : List (String × String)) (st : MatState)
    (h0 : ∀ e ∈ st.skipped, e.2 ≠ SkipReason.EmptyPath) :
    ∀ e ∈ (ms.foldl (createStep writeOk root) st).skipped, e.2 ≠ SkipReason.EmptyPath := by
  induction ms generalizing st with
  | nil => exact h0
  | cons m ms ih =>
    rw [List.foldl_cons]
    apply ih
    intro e he
    by_cases h1 : containmentOk (resolvePath root) (resolveAbs root m.1) = true
    · by_cases h2 : writeOk (resolveAbs root m.1) = true
      · rw [createStep_write writeOk root st m h1 h2] at he
        exact h0 e he
      · rw [Bool.not_eq_true] at h2
        rw [createStep_writeError writeOk root st m h1 h2] at he
        rcases List.mem_append.mp he with h | h
        · exact h0 e h
        · rw [List.mem_singleton.mp h]
          intro hcon
          cases hcon
    · rw [Bool.not_eq_true] at h1
      rw [createStep_escape writeOk root st m h1] at he
      rcases List.mem_append.mp he with h | h
      · exact h0 e h
      · rw [List.mem_singleton.mp h]
        intro hcon
        cases hcon

/-- Every file of the final state was present initially or sits strictly
below the resolved root: nothing is ever written outside the root. -/
theorem foldl_files_subset (writeOk : List String → Bool) (root : List String)
    (ms : List (String × String)) (st : MatState) {q : List String} {d : String}
    (h : (q, d) ∈ (ms.foldl (createStep writeOk root) st).fs.files) :
    (q, d) ∈ st.fs.files ∨ (resolvePath root <+: q ∧ resolvePath root ≠ q) := by
  induction ms generalizing st with
  | nil => exact Or.inl h
  | cons m ms ih =>
    rw [List.foldl_cons] at h
    rcases ih _ h with hin | hout
    · by_cases h1 : containmentOk (resolvePath root) (resolveAbs root m.1) = true
      · by_cases h2 : writeOk (resolveAbs root m.1) = true
        · rw [createStep_write writeOk root st m h1 h2] at hin
          rcases mem_files_writeFile (by simpa using hin) with hin' | hq
          · exact Or.inl (by simpa using hin')
          · subst hq
            exact Or.inr (containmentOk_iff.mp h1)
        · rw [Bool.not_eq_true] at h2
          rw [createStep_writeError writeOk root st m h1 h2] at hin
          exact Or.inl hin
      · rw [Bool.not_eq_true] at h1
        rw [createStep_escape writeOk root st m h1] at hin
        exact Or.inl hin
    · exact Or.inr hout

theorem lookupF_createStep_of_writesTo (writeOk : List String → Bool)
    (root : List String) (st : MatState) (m : String × String) (k : List String)
    (h : writesTo writeOk root k m = true) :
    lookupF (createStep writeOk root st m).fs k = some (stripStr m.2) := by
  unfold writesTo accepts at h
  rw [Bool.and_eq_true, Bool.and_eq_true] at h
  obtain ⟨⟨h1, h2⟩, h3⟩ := h
  rw [decide_eq_true_iff] at h3
  rw [createStep_write writeOk root st m h1 h2]
  simp only
  rw [h3, lookupF_writeFile_self]

theorem lookupF_createStep_of_not (writeOk : List String → Bool)
    (root : List String) (st : MatState) (m : String × String) (k : List String)
    (h : writesTo writeOk root k m = false) :
    lookupF (createStep writeOk root st m).fs k = lookupF st.fs k := by
  by_cases h1 : containmentOk (resolvePath root) (resolveAbs root m.1) = true
  · by_cases h2 : writeOk (resolveAbs root m.1) = true
    · have h3 : resolveAbs root m.1 ≠ k := by
        intro hk
        have : writesTo writeOk root k m = true := by
          unfold writesTo accepts
          rw [h1, h2, decide_eq_true hk]
          rfl
        rw [h] at this
        cases this
      rw [createStep_write writeOk root st m h1 h2]
      simp only
      rw [lookupF_writeFile_ne _ _ (fun hk => h3 hk.symm), lookupF_mkdirRec]
    · rw [Bool.not_eq_true] at h2
      rw [createStep_writeError writeOk root st m h1 h2]
  · rw [Bool.not_eq_true] at h1
    rw [createStep_escape writeOk root st m h1]

/-- What the loop leaves at path `k`: the stripped content of the last match
that writes to `k`, and the initial contents when no match does. -/
theorem lookupF_foldl (writeOk : List String → Bool) (root : List String)
    (ms : List (String × String)) (st : MatState) (k : List String) :
    lookupF (ms.foldl (createStep writeOk root) st).fs k =
      match (ms.filter (writesTo writeOk root k)).getLast? with
      | some m => some (stripStr m.2)
      | none => lookupF st.fs k := by
  induction ms generalizing st with
  | nil => rfl
  | cons m ms ih =>
    rw [List.foldl_cons, ih (createStep writeOk root st m)]
    by_cases hw : writesTo writeOk root k m = true
    · rw [List.filter_cons_of_pos hw,
        show m :: List.filter (writesTo writeOk root k) ms
            = [m] ++ List.filter (writesTo writeOk root k) ms from rfl,
        List.getLast?_append]
      cases hlast : (List.filter (writesTo writeOk root k) ms).getLast? with
      | some m' => rfl
      | none =>
        simp only [Option.none_or]
        rw [lookupF_createStep_of_writesTo writeOk root st m k hw]
        rfl
    · rw [Bool.not_eq_true] at hw
      rw [List.filter_cons_of_neg (by simp [hw])]
      cases hlast : (List.filter (writesTo writeOk root k) ms).getLast? with
      | some m' => rfl
      | none =>
        simp only
        rw [lookupF_createStep_of_not writeOk root st m k hw]

/-- A file present before the loop is still present after it (no rollback,
no deletion). -/
theorem lookupF_foldl_none (writeOk : List String → Bool) (root : List String)
    (ms : List (String × String)) (st : MatState) (k : List String)
    (h : lookupF (ms.foldl (createStep writeOk root) st).fs k = none) :
    lookupF st.fs k = none := by
  rw [lookupF_foldl] at h
  cases hlast : (List.filter (writesTo writeOk root k) ms).getLast? with
  | some m' =>
    rw [hlast] at h
    cases h
  | none =>
    rw [hlast] at h
    exact h

/-- How many files the loop creates: one per accepted match, irrespective of
the starting state. -/
theorem foldl_created_count (writeOk : List String → Bool) (root : List String)
    (ms : List (String × String)) (st : MatState) :
    (ms.foldl (createStep writeOk root) st).created.length
      = st.created.length + ms.countP (accepts writeOk root) := by
  induction ms generalizing st with
  | nil => simp
  | cons m ms ih =>
    rw [List.foldl_cons, ih (createStep writeOk root st m), List.countP_cons]
    by_cases h1 : containmentOk (resolvePath root) (resolveAbs root m.1) = true
    · by_cases h2 : writeOk (resolveAbs root m.1) = true
      · have ha : accepts writeOk root m = true := by
          unfold accepts
          rw [h1, h2]
          rfl
        rw [createStep_write writeOk root st m h1 h2, ha]
        simp only [List.length_append, List.length_singleton, if_true]
        omega
      · rw [Bool.not_eq_true] at h2
        have ha : accepts writeOk root m = false := by
          unfold accepts
          rw [h2, Bool.and_false]
        rw [createStep_writeError writeOk root st m h1 h2, ha]
        simp
    · rw [Bool.not_eq_true] at h1
      have ha : accepts writeOk root m = false := by
        unfold accepts
        rw [h1, Bool.false_and]
      rw [createStep_escape writeOk root st m h1, ha]
      simp

/-! ## Lemmas: directories -/

theorem mem_foldl_addDir (l : List (List String)) (ds : List (List String))
    {d : List String} (h : d ∈ ds) : d ∈ l.foldl addDir ds := by
  induction l generalizing ds with
  | nil => exact h
  | cons x l ih =>
    apply ih
    unfold addDir
    by_cases hx : x ∈ ds
    · rwa [if_pos hx]
    · rw [if_neg hx]
      exact List.mem_append_left _ h

theorem self_mem_foldl_addDir (l : List (List String)) (ds : List (List String))
    {d : List String} (h : d ∈ l) : d ∈ l.foldl addDir ds := by
  induction l generalizing ds with
  | nil => cases h
  | cons x l ih =>
    rw [List.foldl_cons]
    rcases List.mem_cons.mp h with heq | htail
    · subst heq
      apply mem_foldl_addDir
      unfold addDir
      by_cases hx : d ∈ ds
      · rwa [if_pos hx]
      · rw [if_neg hx]
        exact List.mem_append_right _ (List.mem_singleton.mpr rfl)
    · exact ih (addDir ds x) htail

theorem mem_dirs_mkdirRec (fs : FS) (d : List String) : d ∈ (mkdirRec fs d).dirs := by
  unfold mkdirRec
  exact self_mem_foldl_addDir _ _ (List.mem_append_right _ (List.mem_singleton.mpr rfl))

theorem dirs_mkdirRec_mono (fs : FS) (d : List String) {x : List String}
    (h : x ∈ fs.dirs) : x ∈ (mkdirRec fs d).dirs :=
  mem_foldl_addDir _ _ h

theorem dirs_createStep_mono (writeOk : List String → Bool) (root : List String)
    (st : MatState) (m : String × String) {d : List String}
    (h : d ∈ st.fs.dirs) : d ∈ (createStep writeOk root st m).fs.dirs := by
  by_cases h1 : containmentOk (resolvePath root) (resolveAbs root m.1) = true
  · by_cases h2 : writeOk (resolveAbs root m.1) = true
    · rw [createStep_write writeOk root st m h1 h2]
      exact dirs_mkdirRec_mono _ _ h
    · rw [Bool.not_eq_true] at h2
      rw [createStep_writeError writeOk root st m h1 h2]
      exact h
  · rw [Bool.not_eq_true] at h1
    rw [createStep_escape writeOk root st m h1]
    exact h

theorem dirs_foldl_mono (writeOk : List String → Bool) (root : List String)
    (ms : List (String × String)) (st : MatState) {d : List String}
    (h : d ∈ st.fs.dirs) : d ∈ (ms.foldl (createStep writeOk root) st).fs.dirs := by
  induction ms generalizing st with
  | nil => exact h
  | cons m ms ih => exact ih _ (dirs_createStep_mono writeOk root st m h)

/-! ## Lemmas: the extractor -/

/-- `find?` returns the element at the first index satisfying the
predicate. -/
theorem find?_eq_of_first {α : Type} (l : List α) (p : α → Bool) (i : Nat)
    (h : i < l.length) (hi : p l[i] = true)
    (hmin : ∀ j, (hj : j < l.length) → j < i → p l[j] = false) :
    l.find? p = some l[i] := by
  induction l generalizing i with
  | nil => cases h
  | cons a l ih =>
    cases i with
    | zero => exact List.find?_cons_of_pos _ hi
    | succ n =>
      have hpa : p a = false := hmin 0 (by simp) (Nat.succ_pos n)
      rw [List.find?_cons_of_neg _ (by simp [hpa])]
      have hlt : n < l.length := Nat.lt_of_succ_lt_succ h
      have hget : (a :: l)[n + 1] = l[n] := rfl
      rw [hget] at hi ⊢
      exact ih n hlt hi (fun j hj hji =>
        hmin (j + 1) (Nat.succ_lt_succ hj) (Nat.succ_lt_succ hji))

/-! ## Unfolding `create_project` on a successful parse -/

theorem create_project_eq (writeOk : List String → Bool) (root : List String)
    (ms : List (String × String)) (fs : FS) (h : ms ≠ []) :
    create_project writeOk root ms fs
      = (some ((ms.foldl (createStep writeOk root)
            ⟨[], [], mkdirRec fs (resolvePath root)⟩).created,
          (ms.foldl (createStep writeOk root)
            ⟨[], [], mkdirRec fs (resolvePath root)⟩).skipped),
        (ms.foldl (createStep writeOk root)
          ⟨[], [], mkdirRec fs (resolvePath root)⟩).fs) := by
  cases ms with
  | nil => exact absurd rfl h
  | cons m ms' => rfl

theorem create_project_fst (writeOk : List String → Bool) (root : List String)
    (ms : List (String × String)) (fs : FS) (h : ms ≠ []) :
    (create_project writeOk root ms fs).1
      = some ((ms.foldl (createStep writeOk root)
            ⟨[], [], mkdirRec fs (resolvePath root)⟩).created,
          (ms.foldl (createStep writeOk root)
            ⟨[], [], mkdirRec fs (resolvePath root)⟩).skipped) := by
  rw [create_project_eq writeOk root ms fs h]

theorem create_project_snd (writeOk : List String → Bool) (root : List String)
    (ms : List (String × String)) (fs : FS) (h : ms ≠ []) :
    (create_project writeOk root ms fs).2
      = (ms.foldl (createStep writeOk root)
          ⟨[], [], mkdirRec fs (resolvePath root)⟩).fs := by
  rw [create_project_eq writeOk root ms fs h]

/-! ## The claims -/

/-- C1: every candidate pair whose path, resolved against the output root and
normalized, lies outside the root is recorded in `skipped` with reason
`PathEscape`; no file is ever written outside the root; and the batch is
never aborted — created and skipped together settle every pair. -/
theorem c1_path_escape_skipped (writeOk : List String → Bool) (root : List String)
    (fs : FS) (ms : List (String × String)) (p c : String)
    (hmem : (p, c) ∈ ms)
    (hout : ¬ resolvePath root <+: resolveAbs root p) :
    ∃ created skipped fs',
      create_project writeOk root ms fs = (some (created, skipped), fs') ∧
      (stripStr p, SkipReason.PathEscape) ∈ skipped ∧
      (∀ q d, (q, d) ∈ fs'.files →
        (q, d) ∈ fs.files ∨ (resolvePath root <+: q ∧ resolvePath root ≠ q)) ∧
      created.length + skipped.length = ms.length := by
  have hlist : ms ≠ [] := by
    intro h
    subst h
    cases hmem
  have hesc : containmentOk (resolvePath root) (resolveAbs root p) = false := by
    rw [Bool.eq_false_iff]
    intro h
    exact hout (containmentOk_iff.mp h).1
  refine ⟨_, _, _, create_project_eq writeOk root ms fs hlist, ?_, ?_, ?_⟩
  · exact foldl_skipped_of_escape writeOk root ms _ hmem hesc
  · intro q d h
    rcases foldl_files_subset writeOk root ms _ h with h' | h'
    · exact Or.inl h'
    · exact Or.inr h'
  · rw [foldl_count]
    simp

theorem c1_path_escape_skipped_witness :
    ∃ created skipped fs',
      create_project (fun _ => true) ["r"]
          [("../escape.txt", "bad"), ("a.txt", "ok")] ⟨[], []⟩
        = (some (created, skipped), fs') ∧
      (stripStr "../escape.txt", SkipReason.PathEscape) ∈ skipped ∧
      (∀ q d, (q, d) ∈ fs'.files →
        (q, d) ∈ (⟨[], []⟩ : FS).files ∨
          (resolvePath ["r"] <+: q ∧ resolvePath ["r"] ≠ q)) ∧
      created.length + skipped.length
        = [("../escape.txt", "bad"), ("a.txt", "ok")].length :=
  c1_path_escape_skipped (fun _ => true) ["r"] ⟨[], []⟩
    [("../escape.txt", "bad"), ("a.txt", "ok")] "../escape.txt" "bad"
    (by decide) (by decide)

/-- C2: an input text containing zero FILE/code-block pairs makes the call
fail with the parse error (surfaced to the caller as the `none` result) and
no file is written: the filesystem is returned untouched. -/
theorem c2_parse_error_no_writes (writeOk : List String → Bool) (root : List String)
    (fs : FS) (ms : List (String × String)) (h : ms = []) :
    (create_project writeOk root ms fs).1 = none ∧
    (create_project writeOk root ms fs).2 = fs := by
  subst h
  exact ⟨rfl, rfl⟩

theorem c2_parse_error_no_writes_witness :
    (create_project (fun _ => true) ["r"] [] ⟨[], []⟩).1 = none ∧
    (create_project (fun _ => true) ["r"] [] ⟨[], []⟩).2 = ⟨[], []⟩ :=
  c2_parse_error_no_writes (fun _ => true) ["r"] ⟨[], []⟩ [] rfl

/-- C9: on the zero-pair parse error the filesystem is wholly untouched — in
particular the output root directory is not created, because the recursive
creation of the root (line 189) runs only after parsing succeeds; and on any
successful parse the root directory is indeed created. -/
theorem c9_root_created_only_after_parse (writeOk : List String → Bool)
    (root : List String) (fs : FS) (ms : List (String × String)) :
    (ms = [] → (create_project writeOk root ms fs).2 = fs) ∧
    (ms ≠ [] → resolvePath root ∈ (create_project writeOk root ms fs).2.dirs) := by
  constructor
  · intro h
    subst h
    rfl
  · intro h
    rw [create_project_snd writeOk root ms fs h]
    exact dirs_foldl_mono writeOk root ms _ (mem_dirs_mkdirRec fs (resolvePath root))

theorem c9_root_created_only_after_parse_witness :
    (create_project (fun _ => true) ["r"] [] ⟨[], []⟩).2 = ⟨[], []⟩ ∧
    resolvePath ["r"]
      ∈ (create_project (fun _ => true) ["r"] [("a.txt", "x")] ⟨[], []⟩).2.dirs :=
  ⟨(c9_root_created_only_after_parse (fun _ => true) ["r"] ⟨[], []⟩ []).1 rfl,
   (c9_root_created_only_after_parse (fun _ => true) ["r"] ⟨[], []⟩
      [("a.txt", "x")]).2 (by decide)⟩

/-- C3 counterexample: the pair `(".", "x")` resolves exactly to the output
root, yet it is skipped with reason `PathEscape` — refuting the claim that a
path resolving to the root itself passes the containment check. -/
theorem c3_root_equality_counterexample :
    resolveAbs ["r"] "." = resolvePath ["r"] ∧
    (create_project (fun _ => true) ["r"] [(".", "x")] ⟨[], []⟩).1
      = some ([], [(".", SkipReason.PathEscape)]) := by
  decide

/-- C3 amended: the containment check accepts exactly the strict descendants
of the resolved output root; a pair resolving to such a strict descendant is
never skipped with reason `PathEscape` (its step leaves `skipped` unchanged,
or appends a `WriteError` when the write fails), while a path resolving to
the root itself fails the check. -/
theorem c3_strict_descendants_only (writeOk : List String → Bool)
    (root : List String) (st : MatState) (m : String × String) :
    (containmentOk (resolvePath root) (resolveAbs root m.1) = true ↔
      (resolvePath root <+: resolveAbs root m.1 ∧
        resolvePath root ≠ resolveAbs root m.1)) ∧
    (resolvePath root <+: resolveAbs root m.1 →
      resolvePath root ≠ resolveAbs root m.1 →
      (createStep writeOk root st m).skipped = st.skipped ∨
      (createStep writeOk root st m).skipped
        = st.skipped ++ [(stripStr m.1, SkipReason.WriteError)]) := by
  refine ⟨containmentOk_iff, fun hsub hne => ?_⟩
  have h1 : containmentOk (resolvePath root) (resolveAbs root m.1) = true :=
    containmentOk_iff.mpr ⟨hsub, hne⟩
  by_cases h2 : writeOk (resolveAbs root m.1) = true
  · left
    rw [createStep_write writeOk root st m h1 h2]
  · right
    rw [Bool.not_eq_true] at h2
    rw [createStep_writeError writeOk root st m h1 h2]

theorem c3_strict_descendants_only_witness :
    (createStep (fun _ => true) ["r"] ⟨[], [], ⟨[], []⟩⟩ ("a.txt", "x")).skipped = [] ∨
    (createStep (fun _ => true) ["r"] ⟨[], [], ⟨[], []⟩⟩ ("a.txt", "x")).skipped
      = [] ++ [(stripStr "a.txt", SkipReason.WriteError)] :=
  (c3_strict_descendants_only (fun _ => true) ["r"] ⟨[], [], ⟨[], []⟩⟩
    ("a.txt", "x")).2 (by decide) (by decide)

/-- C4 counterexample: a FILE marker whose path string strips to empty is
skipped with reason `PathEscape`, never `EmptyPath` — the code has no
`EmptyPath` handling at all. -/
theorem c4_empty_path_counterexample :
    stripStr "  " = "" ∧
    (create_project (fun _ => true) ["r"] [("  ", "x")] ⟨[], []⟩).1
      = some ([], [("", SkipReason.PathEscape)]) ∧
    ("", SkipReason.EmptyPath) ∉ [("", SkipReason.PathEscape)] := by
  decide

/-- C4 amended: a pair whose path strips to the empty string is rejected
per-file and the batch continues, but the recorded reason is `PathEscape` —
the empty path resolves to the output root itself and fails the containment
check — and no pair is ever recorded with reason `EmptyPath`. -/
theorem c4_empty_path_rejected (writeOk : List String → Bool) (root : List String)
    (fs : FS) (ms : List (String × String)) (p c : String)
    (hmem : (p, c) ∈ ms) (hempty : stripStr p = "") :
    ∃ created skipped fs',
      create_project writeOk root ms fs = (some (created, skipped), fs') ∧
      ("", SkipReason.PathEscape) ∈ skipped ∧
      (∀ e ∈ skipped, e.2 ≠ SkipReason.EmptyPath) ∧
      created.length + skipped.length = ms.length := by
  have hlist : ms ≠ [] := by
    intro h
    subst h
    cases hmem
  have hres : resolveAbs root p = resolvePath root := resolveAbs_of_strip_empty hempty
  have hesc : containmentOk (resolvePath root) (resolveAbs root p) = false := by
    rw [hres]
    exact containmentOk_self _
  refine ⟨_, _, _, create_project_eq writeOk root ms fs hlist, ?_, ?_, ?_⟩
  · have h := foldl_skipped_of_escape writeOk root ms
      ⟨[], [], mkdirRec fs (resolvePath root)⟩ hmem hesc
    rwa [hempty] at h
  · apply foldl_skipped_reasons
    intro e he
    cases he
  · rw [foldl_count]
    simp

theorem c4_empty_path_rejected_witness :
    ∃ created skipped fs',
      create_project (fun _ => true) ["r"] [(" ", "x")] ⟨[], []⟩
        = (some (created, skipped), fs') ∧
      ("", SkipReason.PathEscape) ∈ skipped ∧
      (∀ e ∈ skipped, e.2 ≠ SkipReason.EmptyPath) ∧
      created.length + skipped.length = [(" ", "x")].length :=
  c4_empty_path_rejected (fun _ => true) ["r"] ⟨[], []⟩ [(" ", "x")] " " "x"
    (by decide) (by decide)

/-- C5: with two FILE entries for the same relative path, the file on disk
after materialization holds the stripped content of the later entry in
document order — writes happen in order and overwrite, so the last writer
wins (entries after it may exist but must target other files). -/
theorem c5_last_writer_wins (writeOk : List String → Bool) (root : List String)
    (fs : FS) (pre mid post : List (String × String)) (p c1 c2 : String)
    (hin : resolvePath root <+: resolveAbs root p)
    (hne : resolvePath root ≠ resolveAbs root p)
    (hw : writeOk (resolveAbs root p) = true)
    (hpost : ∀ e ∈ post, resolveAbs root e.1 ≠ resolveAbs root p) :
    lookupF (create_project writeOk root
        ((pre ++ (p, c1) :: mid) ++ (p, c2) :: post) fs).2
      (resolveAbs root p) = some (stripStr c2) := by
  have hlist : (pre ++ (p, c1) :: mid) ++ (p, c2) :: post ≠ [] := by simp
  rw [create_project_snd writeOk root _ fs hlist, lookupF_foldl]
  have hwk : writesTo writeOk root (resolveAbs root p) (p, c2) = true := by
    unfold writesTo accepts
    rw [containmentOk_iff.mpr ⟨hin, hne⟩, hw, decide_eq_true rfl]
    rfl
  have hnil : List.filter (writesTo writeOk root (resolveAbs root p)) post = [] := by
    rw [List.filter_eq_nil_iff]
    intro e he
    rw [Bool.not_eq_true]
    unfold writesTo
    rw [decide_eq_false (hpost e he), Bool.and_false]
  rw [List.filter_append, List.filter_cons_of_pos hwk, hnil,
    List.getLast?_append]
  rfl

theorem c5_last_writer_wins_witness :
    lookupF (create_project (fun _ => true) ["r"]
        (([] ++ ("a.txt", "one") :: []) ++ ("a.txt", " two ") :: []) ⟨[], []⟩).2
      (resolveAbs ["r"] "a.txt") = some (stripStr " two ") :=
  c5_last_writer_wins (fun _ => true) ["r"] ⟨[], []⟩ [] [] [] "a.txt" "one" " two "
    (by decide) (by decide) rfl (by decide)

theorem matstate_fs (a : List String) (b : List (String × SkipReason)) (f : FS) :
    (⟨a, b, f⟩ : MatState).fs = f := rfl

/-- Running the loop a second time on its own output leaves every file
contents unchanged: the last write to any path is the same in both runs, and
paths no run writes keep their initial contents. -/
theorem lookupF_double_foldl (writeOk : List String → Bool) (root : List String)
    (ms : List (String × String)) (fs : FS) (k : List String) :
    lookupF (ms.foldl (createStep writeOk root)
        ⟨[], [], mkdirRec ((ms.foldl (createStep writeOk root)
          ⟨[], [], mkdirRec fs (resolvePath root)⟩).fs) (resolvePath root)⟩).fs k
      = lookupF (ms.foldl (createStep writeOk root)
          ⟨[], [], mkdirRec fs (resolvePath root)⟩).fs k := by
  rw [lookupF_foldl]
  cases hlast : (ms.filter (writesTo writeOk root k)).getLast? with
  | some m' =>
    rw [lookupF_foldl, hlast]
  | none =>
    simp only
    rw [matstate_fs, lookupF_mkdirRec, lookupF_foldl, hlast]

/-- C6: materialization is idempotent — a second call with the same text and
root leaves every file with the same contents as after the first call, and
the `created` list has the same length both times. -/
theorem c6_idempotent (writeOk : List String → Bool) (root : List String)
    (ms : List (String × String)) (fs : FS) :
    (∀ k, lookupF (create_project writeOk root ms
        (create_project writeOk root ms fs).2).2 k
      = lookupF (create_project writeOk root ms fs).2 k) ∧
    (create_project writeOk root ms
        (create_project writeOk root ms fs).2).1.map (fun r => r.1.length)
      = (create_project writeOk root ms fs).1.map (fun r => r.1.length) := by
  cases hms : ms with
  | nil => exact ⟨fun k => rfl, rfl⟩
  | cons m ms' =>
    rw [← hms]
    have hlist : ms ≠ [] := by
      rw [hms]
      simp
    constructor
    · intro k
      rw [create_project_snd writeOk root ms fs hlist,
        create_project_snd writeOk root ms _ hlist]
      exact lookupF_double_foldl writeOk root ms fs k
    · rw [create_project_snd writeOk root ms fs hlist,
        create_project_fst writeOk root ms fs hlist,
        create_project_fst writeOk root ms _ hlist]
      simp only [Option.map_some']
      rw [foldl_created_count, foldl_created_count]

theorem c6_idempotent_witness :
    lookupF (create_project (fun _ => true) ["r"] [("a.txt", " x ")]
        (create_project (fun _ => true) ["r"] [("a.txt", " x ")] ⟨[], []⟩).2).2
      ["r", "a.txt"]
      = lookupF (create_project (fun _ => true) ["r"] [("a.txt", " x ")] ⟨[], []⟩).2
        ["r", "a.txt"] ∧
    (create_project (fun _ => true) ["r"] [("a.txt", " x ")]
        (create_project (fun _ => true) ["r"] [("a.txt", " x ")] ⟨[], []⟩).2).1.map
        (fun r => r.1.length)
      = (create_project (fun _ => true) ["r"] [("a.txt", " x ")] ⟨[], []⟩).1.map
        (fun r => r.1.length) :=
  ⟨(c6_idempotent (fun _ => true) ["r"] [("a.txt", " x ")] ⟨[], []⟩).1 ["r", "a.txt"],
   (c6_idempotent (fun _ => true) ["r"] [("a.txt", " x ")] ⟨[], []⟩).2⟩

/-- C7: a pair whose (in-root) write fails is recorded in `skipped` with
reason `WriteError`, the remaining pairs are still processed (created and
skipped settle the whole list), the call still returns a result rather than
failing, and nothing is rolled back: every file present before the call is
still present after it. -/
theorem c7_write_error_continue (writeOk : List String → Bool) (root : List String)
    (fs : FS) (ms : List (String × String)) (p c : String)
    (hmem : (p, c) ∈ ms)
    (hok : containmentOk (resolvePath root) (resolveAbs root p) = true)
    (hfail : writeOk (resolveAbs root p) = false) :
    ∃ created skipped fs',
      create_project writeOk root ms fs = (some (created, skipped), fs') ∧
      (stripStr p, SkipReason.WriteError) ∈ skipped ∧
      created.length + skipped.length = ms.length ∧
      (∀ k, lookupF fs k ≠ none → lookupF fs' k ≠ none) := by
  have hlist : ms ≠ [] := by
    intro h
    subst h
    cases hmem
  refine ⟨_, _, _, create_project_eq writeOk root ms fs hlist, ?_, ?_, ?_⟩
  · exact foldl_skipped_of_writeError writeOk root ms _ hmem hok hfail
  · rw [foldl_count]
    simp
  · intro k hk hnone
    apply hk
    have h1 : lookupF (mkdirRec fs (resolvePath root)) k = none :=
      lookupF_foldl_none writeOk root ms _ k hnone
    rwa [lookupF_mkdirRec] at h1

theorem c7_write_error_continue_witness :
    ∃ created skipped fs',
      create_project (fun _ => false) ["r"] [("a.txt", "x")] ⟨[(["q"], "old")], []⟩
        = (some (created, skipped), fs') ∧
      (stripStr "a.txt", SkipReason.WriteError) ∈ skipped ∧
      created.length + skipped.length = [("a.txt", "x")].length ∧
      (∀ k, lookupF ⟨[(["q"], "old")], []⟩ k ≠ none → lookupF fs' k ≠ none) :=
  c7_write_error_continue (fun _ => false) ["r"] ⟨[(["q"], "old")], []⟩
    [("a.txt", "x")] "a.txt" "x" (by decide) (by decide) rfl

/-- C8: with a provided (non-empty) language, `extract_code` returns the
stripped content of the first block in document order whose tag equals the
language case-insensitively; when no block's tag matches it falls back to
the stripped content of the first block regardless of tag; and with no
blocks at all it returns `none`. -/
theorem c8_extract_first_language_match (ms : List (String × String))
    (language : String) (hlang : language ≠ "") :
    (ms = [] → extract_code ms language = none) ∧
    (∀ i, (hi : i < ms.length) → langMatches language ms[i] = true →
      (∀ j, (hj : j < ms.length) → j < i → langMatches language ms[j] = false) →
      extract_code ms language = some (stripStr ms[i].2)) ∧
    ((∀ e ∈ ms, langMatches language e = false) →
      ∀ m0, ms.head? = some m0 → extract_code ms language = some (stripStr m0.2)) := by
  refine ⟨?_, ?_, ?_⟩
  · intro h
    subst h
    rfl
  · intro i hi hmatch hmin
    cases ms with
    | nil => cases hi
    | cons m0 rest =>
      simp only [extract_code, if_pos hlang]
      rw [find?_eq_of_first (m0 :: rest) (langMatches language) i hi hmatch hmin]
  · intro hnone m0 hhead
    cases ms with
    | nil => cases hhead
    | cons m0' rest =>
      have hm0 : m0 = m0' := by
        rw [List.head?_cons] at hhead
        exact (Option.some.injEq _ _ ▸ hhead).symm
      subst hm0
      have hfind : (m0 :: rest).find? (langMatches language) = none := by
        rw [List.find?_eq_none]
        intro x hx
        rw [hnone x hx]
        simp
      simp only [extract_code, if_pos hlang, hfind]

theorem c8_extract_first_language_match_witness :
    extract_code [("python", " a "), ("bash", " b ")] "bash"
      = some (stripStr " b ") :=
  (c8_extract_first_language_match [("python", " a "), ("bash", " b ")] "bash"
      (by decide)).2.1 1 (by decide) (by decide)
    (fun j hj hji => by
      have hj0 : j = 0 := Nat.lt_one_iff.mp hji
      subst hj0
      exact (by decide : langMatches "bash" ("python", " a ") = false))

/-- C10: `extract_code` can return a present-but-empty result — a matched
block whose body is all whitespace comes back as `some ""`, not `none` — and
the `ask` save path, which tests the result for Python truthiness, produces
the same saved text as when no block matched at all: the two cases are
indistinguishable to that caller. -/
theorem c10_empty_block_indistinguishable (response_text : String) :
    extract_code [("python", " ")] "python" = some "" ∧
    extract_code [("python", " ")] "python" ≠ none ∧
    content_to_save [("python", " ")] "python" response_text
      = content_to_save [] "python" response_text := by
  refine ⟨by decide, by decide, ?_⟩
  rfl

theorem c10_empty_block_indistinguishable_witness :
    extract_code [("python", " ")] "python" = some "" ∧
    extract_code [("python", " ")] "python" ≠ none ∧
    content_to_save [("python", " ")] "python" "raw text"
      = content_to_save [] "python" "raw text" :=
  c10_empty_block_indistinguishable "raw text"


end GeminiDev
